import Mathlib

/-
  Shallow embedding of the dylanlott/orderbook matching engine.

  Sources embedded here:
  * the price tree (`Node` in src/unnamed/part_021, first file; identical
    FindMin/FindMax in src/pkg/orderbook/tree.go),
  * the matcher (`AttemptFill`, `exact`, `humble`, `greedy` in
    src/unnamed/part_022; repeated verbatim in src/unnamed/part_026),
  * the in-memory account ledger (`InMemoryManager.Tx` in src/unnamed/part_000).

  Modelling conventions:
  * Go `uint64` is modelled as `Nat` with explicit wrap-around helpers
    (`add64`, `sub64`, `mul64`) that reduce modulo 2^64, matching Go's
    fixed-width arithmetic.
  * Go pointers to `Order` are modelled by order identity (the `id` field):
    a pointer write is reflected at every holder of the same id
    (`Tree.updateOrder`).  All theorems about engine steps are stated on
    states whose order ids are distinct, which is where this model agrees
    exactly with pointer semantics.
  * Go `float64` ledger balances are modelled as exact rationals (`Rat`).
    Every amount the matcher hands to the ledger is a `uint64` converted by
    `float64(...)`, which is exact below 2^53; the conversion is modelled as
    the exact cast `Nat → Rat`.
  * `log.Fatalf` terminates the process; a handler that can reach it returns
    `Option`, with `none` marking the fatal exit.
  * Channel sends (`matchCh <- m`, `errs <- e`) are modelled by appending to
    the match list / incrementing the error counter of the engine state.
-/

namespace Orderbook

/-- Modulus of Go's `uint64` arithmetic. -/
def u64Mod : Nat := 2 ^ 64

/-- Go `uint64` addition (wraps modulo 2^64). -/
def add64 (a b : Nat) : Nat := (a + b) % u64Mod

/-- Go `uint64` subtraction (wraps modulo 2^64). -/
def sub64 (a b : Nat) : Nat := (a + (u64Mod - b % u64Mod)) % u64Mod

/-- Go `uint64` multiplication (wraps modulo 2^64). -/
def mul64 (a b : Nat) : Nat := (a * b) % u64Mod

theorem add64_eq {a b : Nat} (h : a + b < u64Mod) : add64 a b = a + b := by
  simp [add64, Nat.mod_eq_of_lt h]

theorem sub64_eq {a b : Nat} (hba : b ≤ a) (ha : a < u64Mod) : sub64 a b = a - b := by
  have hb : b < u64Mod := lt_of_le_of_lt hba ha
  simp only [sub64, Nat.mod_eq_of_lt hb]
  have h1 : a + (u64Mod - b) = u64Mod + (a - b) := by omega
  rw [h1, Nat.add_mod_left, Nat.mod_eq_of_lt (by omega)]

theorem mul64_eq {a b : Nat} (h : a * b < u64Mod) : mul64 a b = a * b := by
  simp [mul64, Nat.mod_eq_of_lt h]

/-- `Match` of src/unnamed/part_022: the `Buy`/`Sell` pointer fields are
modelled by the ids of the referenced orders.  `Price`, `Quantity`, `Total`
are the Go struct's `uint64` fields (a freshly built `Match{Buy: _, Sell: _}`
leaves them at their zero values, exactly as the Go code does). -/
structure Match where
  buyID : String
  sellID : String
  price : Nat
  quantity : Nat
  total : Nat
deriving DecidableEq, Repr

/-- `Order` of src/unnamed/part_022.  Go's `Open` field is called `openQty`
because `open` is a Lean keyword; `History` stores the emitted `Match`
values, as in Go. -/
structure Order where
  id : String
  accountID : String
  kind : String
  side : String
  price : Nat
  openQty : Nat
  filled : Nat
  history : List Match
deriving DecidableEq, Repr

/-- `Node` of src/unnamed/part_021 (first file).  A Go `*Node` is either
`nil` or a node with a price, an order list and two child pointers. -/
inductive Tree where
  | nil : Tree
  | node (price : Nat) (orders : List Order) (left right : Tree) : Tree
deriving DecidableEq, Repr

namespace Tree

/-- `NewNode` of src/unnamed/part_021: fresh node with an empty order list
and nil children. -/
def newNode (price : Nat) : Tree := .node price [] .nil .nil

/-- Order list of a node; Go's `n.Orders` (nil pointer contributes none). -/
def ordersOf : Tree → List Order
  | .nil => []
  | .node _ os _ _ => os

/-- Price of a node (0 for nil, the `uint64` zero value). -/
def priceOf : Tree → Nat
  | .nil => 0
  | .node p _ _ _ => p

/-- `Node.Insert` of src/unnamed/part_021: descend by price, append the
order to the FIFO list of its price level, creating the node if absent. -/
def insert : Tree → Order → Tree
  | .nil, o => .node o.price [o] .nil .nil
  | .node p os l r, o =>
    if o.price < p then .node p os (l.insert o) r
    else if p < o.price then .node p os l (r.insert o)
    else .node p (os ++ [o]) l r

/-- `Node.Find` of src/unnamed/part_021: returns the node for a price;
on a nil subtree it returns a freshly allocated detached node
(`NewNode(price)`) that is not linked into the tree. -/
def find : Tree → Nat → Tree
  | .nil, price => newNode price
  | .node p os l r, price =>
    if price = p then .node p os l r
    else if price < p then l.find price
    else r.find price

/-- The order list of the real tree node at `price` along the search path,
or `none` when no such node exists (when `find` would fabricate a fresh
node).  Helper used to state `Node.RemoveOrder`'s aliasing faithfully. -/
def findOrders? : Tree → Nat → Option (List Order)
  | .nil, _ => none
  | .node p os l r, price =>
    if price = p then some os
    else if price < p then l.findOrders? price
    else r.findOrders? price

/-- Replace the order list of the tree node at `price` (along the search
path); no change when the price is absent.  Models a write through the
pointer returned by `Find`. -/
def setOrdersAtPrice : Tree → Nat → List Order → Tree
  | .nil, _, _ => .nil
  | .node p os l r, price, new =>
    if price = p then .node p new l r
    else if price < p then .node p os (l.setOrdersAtPrice price new) r
    else .node p os l (r.setOrdersAtPrice price new)

/-- Replace the order list of the receiver (root) node.  Models the Go
assignment `n.Orders = ...` inside `Node.RemoveOrder`. -/
def setRootOrders : Tree → List Order → Tree
  | .nil, _ => .nil
  | .node p _ l r, new => .node p new l r

/-- `Node.RemoveOrder` of src/unnamed/part_021 (first file), including its
aliasing bug.  The Go body is

  found := n.Find(order.Price)
  if found.Price == order.Price \x7b
    for i, o := range found.Orders \x7b
      if order.ID == o.ID \x7b
        n.Orders = append(found.Orders[:i], found.Orders[i+1:]...)
        return true ...

`append(found.Orders[:i], found.Orders[i+1:]...)` shifts the elements of
`found`'s backing array in place and returns a slice one shorter; the
result is assigned to the RECEIVER `n`'s order list, while `found`'s own
slice keeps its original length over the shifted backing array (its value
becomes `spliced ++ [last element]`).  When `found` is the receiver itself
the field assignment wins and the node ends with the spliced list. -/
def removeOrder (t : Tree) (o : Order) : Tree × Bool :=
  match t.findOrders? o.price with
  | none => (t, false)
  | some os =>
    match os.findIdx? (fun x => x.id = o.id) with
    | none => (t, false)
    | some i =>
      let spliced := os.take i ++ os.drop (i + 1)
      let shifted := spliced ++ os.getLast?.toList
      ((t.setOrdersAtPrice o.price shifted).setRootOrders spliced, true)

/-- `Node.List` of src/unnamed/part_021: in-order traversal. -/
def listOrders : Tree → List Order
  | .nil => []
  | .node _ os l r => l.listOrders ++ os ++ r.listOrders

/-- All node prices, in order. -/
def prices : Tree → List Nat
  | .nil => []
  | .node p _ l r => l.prices ++ p :: r.prices

/-- Binary-search-tree ordering on prices (the invariant `Insert`
maintains). -/
def isBST : Tree → Bool
  | .nil => true
  | .node p _ l r =>
    l.prices.all (fun q => q < p) && r.prices.all (fun q => p < q)
      && l.isBST && r.isBST

/-- `Node.FindMin` of src/unnamed/part_021 (identical in
src/pkg/orderbook/tree.go): follow left children to the leftmost node,
regardless of its order list. -/
def findMin : Tree → Tree
  | .nil => .nil
  | .node p os .nil r => .node p os .nil r
  | .node _ _ (.node lp los ll lr) _ => (Tree.node lp los ll lr).findMin

/-- `Node.FindMax` of src/unnamed/part_021 (identical in
src/pkg/orderbook/tree.go): follow right children to the rightmost node. -/
def findMax : Tree → Tree
  | .nil => .nil
  | .node p os l .nil => .node p os l .nil
  | .node _ _ _ (.node rp ros rl rr) => (Tree.node rp ros rl rr).findMax

/-- Replace every stored order having the given order's id.  Models the
visibility of a write through a shared `*Order` pointer (exact for states
with distinct order ids). -/
def updateOrder : Tree → Order → Tree
  | .nil, _ => .nil
  | .node p os l r, o =>
    .node p (os.map fun x => if x.id = o.id then o else x)
      (l.updateOrder o) (r.updateOrder o)

end Tree

/-- `UserAccount` of src/unnamed/part_000; the `float64` balance is
modelled as an exact rational. -/
structure UserAccount where
  email : String
  currentBalance : Rat
deriving DecidableEq, Repr

/-- `InMemoryManager` of src/unnamed/part_000: a map from account id to
account, modelled as an association list. -/
structure InMemoryManager where
  accounts : List (String × UserAccount)
deriving DecidableEq, Repr

namespace InMemoryManager

/-- Go map read `i.Accounts[id]`. -/
def getAccount (m : InMemoryManager) (id : String) : Option UserAccount :=
  (m.accounts.find? (fun kv => kv.1 = id)).map (fun kv => kv.2)

/-- Write through the `*UserAccount` pointer stored under `id` (every entry
with that key observes the new value). -/
def setAccount (m : InMemoryManager) (id : String) (a : UserAccount) : InMemoryManager :=
  ⟨m.accounts.map fun kv => if kv.1 = id then (kv.1, a) else kv⟩

/-- `InMemoryManager.Tx` of src/unnamed/part_000: look up both accounts
(error when either is missing), reject when the source balance is below the
amount, otherwise subtract from the source and add to the destination.  The
destination is re-read after the source write, which reproduces Go's
pointer aliasing when `fromID = toID` (the two mutations hit one struct). -/
def tx (m : InMemoryManager) (fromID toID : String) (amount : Rat) :
    Except String InMemoryManager :=
  match m.getAccount fromID with
  | none => .error "from account does not exist"
  | some fromAcct =>
    match m.getAccount toID with
    | none => .error "to account does not exist"
    | some _ =>
      if fromAcct.currentBalance < amount then .error "insufficient balance"
      else
        let m1 := m.setAccount fromID
          { fromAcct with currentBalance := fromAcct.currentBalance - amount }
        match m1.getAccount toID with
        | none => .error "to account does not exist"
        | some toAcct =>
          .ok (m1.setAccount toID
            { toAcct with currentBalance := toAcct.currentBalance + amount })

end InMemoryManager

/-- State threaded through one `AttemptFill` loop (src/unnamed/part_022):
the two sides of the `Book`, the `fillorder` the goroutine drives (the
loop's own pointer target, aliasing the copy resting in the buy tree), the
ledger, the matches sent on `matchCh`, and the number of errors sent on
`errs`. -/
structure EngineState where
  buyTree : Tree
  sellTree : Tree
  fillorder : Order
  acc : InMemoryManager
  matchesOut : List Match
  errors : Nat
deriving DecidableEq, Repr

/-- Propagate a pointer write to `fillorder`: the loop's local pointer and
both trees observe the updated order. -/
def EngineState.writeBuy (st : EngineState) (o : Order) : EngineState :=
  { st with
    fillorder := if st.fillorder.id = o.id then o else st.fillorder
    buyTree := st.buyTree.updateOrder o
    sellTree := st.sellTree.updateOrder o }

/-- Propagate a pointer write to the resting sell order. -/
def EngineState.writeSell (st : EngineState) (o : Order) : EngineState :=
  { st with
    fillorder := if st.fillorder.id = o.id then o else st.fillorder
    buyTree := st.buyTree.updateOrder o
    sellTree := st.sellTree.updateOrder o }

/-- The amount handed to the ledger by all three handlers of
src/unnamed/part_022: `float64((quantity * price) / 100)` — `uint64`
multiplication, integer division by 100, then conversion to `float64`
(modelled as the exact cast to `Rat`). -/
def txAmount (quantity price : Nat) : Rat :=
  ((mul64 quantity price / 100 : Nat) : Rat)

/-- `exact` of src/unnamed/part_022: handler for `wanted == available`.
Returns `none` where the Go code reaches `log.Fatalf` (mismatched
quantities, or a failed `RemoveOrder` on either side). -/
def exact (st : EngineState) (mBuy mSell : Order) : Option EngineState :=
  let available := sub64 mSell.openQty mSell.filled
  let wanted := sub64 mBuy.openQty mBuy.filled
  let m : Match := ⟨mBuy.id, mSell.id, 0, 0, 0⟩
  if wanted = 0 then
    some { st with matchesOut := st.matchesOut ++ [m] }
  else if available ≠ wanted then
    none
  else
    match st.acc.tx mBuy.accountID mSell.accountID (txAmount available mSell.price) with
    | .error _ => some { st with errors := st.errors + 1 }
    | .ok acc1 =>
      let buy1 := { mBuy with filled := add64 mBuy.filled available }
      let sell1 := { mSell with filled := add64 mSell.filled available }
      let buy2 := { buy1 with history := buy1.history ++ [m] }
      let sell2 := { sell1 with history := sell1.history ++ [m] }
      let st1 := ((st.writeBuy buy2).writeSell sell2)
      let st2 := { st1 with acc := acc1 }
      match st2.buyTree.removeOrder buy2 with
      | (_, false) => none
      | (bt, true) =>
        match st2.sellTree.removeOrder sell2 with
        | (_, false) => none
        | (tr, true) =>
          some { st2 with buyTree := bt, sellTree := tr, matchesOut := st2.matchesOut ++ [m] }

/-- `humble` of src/unnamed/part_022: handler for `wanted < available`.
A failed buy-side `RemoveOrder` only reports an error and the match is
still emitted. -/
def humble (st : EngineState) (mBuy mSell : Order) : EngineState :=
  let wanted := sub64 mBuy.openQty mBuy.filled
  let m : Match := ⟨mBuy.id, mSell.id, 0, 0, 0⟩
  match st.acc.tx mBuy.accountID mSell.accountID (txAmount wanted mSell.price) with
  | .error _ => { st with errors := st.errors + 1 }
  | .ok acc1 =>
    let buy1 := { mBuy with filled := add64 mBuy.filled wanted }
    let sell1 := { mSell with filled := add64 mSell.filled wanted }
    let buy2 := { buy1 with history := buy1.history ++ [m] }
    let sell2 := { sell1 with history := sell1.history ++ [m] }
    let st1 := ((st.writeBuy buy2).writeSell sell2)
    let st2 := { st1 with acc := acc1 }
    match st2.buyTree.removeOrder buy2 with
    | (bt, ok) =>
      { st2 with
        buyTree := bt
        errors := st2.errors + (if ok then 0 else 1)
        matchesOut := st2.matchesOut ++ [m] }

/-- `greedy` of src/unnamed/part_022: handler for `wanted > available`.
It alone sets the match's `Price` and `Quantity` (never `Total`); a failed
sell-side `RemoveOrder` reports an error and returns before the match is
emitted. -/
def greedy (st : EngineState) (mBuy mSell : Order) : EngineState :=
  let available := sub64 mSell.openQty mSell.filled
  match st.acc.tx mBuy.accountID mSell.accountID (txAmount available mSell.price) with
  | .error _ => { st with errors := st.errors + 1 }
  | .ok acc1 =>
    let sell1 := { mSell with filled := add64 mSell.filled available }
    let buy1 := { mBuy with filled := add64 mBuy.filled available }
    let m : Match := ⟨mBuy.id, mSell.id, mSell.price, available, 0⟩
    let buy2 := { buy1 with history := buy1.history ++ [m] }
    let sell2 := { sell1 with history := sell1.history ++ [m] }
    let st1 := ((st.writeBuy buy2).writeSell sell2)
    let st2 := { st1 with acc := acc1 }
    match st2.sellTree.removeOrder sell2 with
    | (_, false) => { st2 with errors := st2.errors + 1 }
    | (tr, true) =>
      { st2 with sellTree := tr, matchesOut := st2.matchesOut ++ [m] }

/-- Outcome of one iteration of the `AttemptFill` loop: `ret` for the Go
`return` statements, `again` for `continue` (or falling through to the next
iteration). -/
inductive StepOut where
  | ret : StepOut
  | again : StepOut
deriving DecidableEq, Repr

/-- One iteration of the `AttemptFill` loop body (src/unnamed/part_022
lines 144-180), between taking and releasing the book mutex.  `none` marks
a `log.Fatalf` inside `exact`.  Note the Go loop body does nothing for
orders whose side is not "buy". -/
def attemptFillStep (st : EngineState) : Option (StepOut × EngineState) :=
  if st.fillorder.side = "buy" then
    let wanted := sub64 st.fillorder.openQty st.fillorder.filled
    match (st.sellTree.findMin).ordersOf with
    | [] => some (.again, st)
    | bookorder :: _ =>
      let available := sub64 bookorder.openQty bookorder.filled
      if available < wanted then
        some (.again, greedy st st.fillorder bookorder)
      else if wanted < available then
        some (.ret, humble st st.fillorder bookorder)
      else
        (exact st st.fillorder bookorder).map (fun s => (.ret, s))
  else
    some (.again, st)

/-- Result of running the `AttemptFill` loop for a bounded number of
iterations. -/
inductive RunResult where
  | done (st : EngineState) : RunResult
  | fatal : RunResult
  | spin : RunResult
deriving DecidableEq, Repr

/-- Run at most `fuel` iterations of the `AttemptFill` loop; `spin` means
the loop had not returned within `fuel` iterations. -/
def attemptFillFuel : Nat → EngineState → RunResult
  | 0, _ => .spin
  | fuel + 1, st =>
    match attemptFillStep st with
    | none => .fatal
    | some (.ret, st1) => .done st1
    | some (.again, st1) => attemptFillFuel fuel st1

/-- Value of an order after a fill step of quantity `q` that records match
`m`: `filled` incremented, the match appended to the history (the two
pointer writes every handler performs). -/
def filledOrder (o : Order) (q : Nat) (m : Match) : Order :=
  { o with filled := o.filled + q, history := o.history ++ [m] }

/-- A book side as `Start` (src/unnamed/part_022) builds it: a price-0 root
with empty order list and two zero-value child nodes. -/
def startNode : Tree :=
  .node 0 [] (.node 0 [] .nil .nil) (.node 0 [] .nil .nil)

/-- Engine state whose buy side holds the incoming order `B` alone at a
root-level price node and whose sell side holds `S` at the head of a
root-level price level with tail `ss`.  This is the configuration reached
when both resting levels sit at their trees' roots, where the buggy
`RemoveOrder` behaves as intended. -/
def twoLevelState (B S : Order) (ss : List Order) (m : InMemoryManager)
    (ms : List Match) (e : Nat) : EngineState :=
  ⟨.node B.price [B] .nil .nil, .node S.price (S :: ss) .nil .nil, B, m, ms, e⟩

/-- Ledger with a buyer and a seller holding 1000 each (the spec's seed
scenarios). -/
def mgr0 : InMemoryManager :=
  ⟨[("buyer", ⟨"buyer", 1000⟩), ("seller", ⟨"seller", 1000⟩)]⟩

/-- Ledger with no accounts: every transfer fails. -/
def mgrEmpty : InMemoryManager := ⟨[]⟩

/-- Incoming BUY at limit price 5, quantity 1. -/
def ordBuy5 : Order := ⟨"B", "buyer", "limit", "buy", 5, 1, 0, []⟩

/-- Resting SELL at price 50, quantity 1. -/
def ordSell50 : Order := ⟨"S", "seller", "limit", "sell", 50, 1, 0, []⟩

/-- The spec's "No cross" seed scenario: resting SELL at 50, incoming BUY
at 5 (buy limit far below the ask). -/
def stNoCross : EngineState :=
  ⟨.node 5 [ordBuy5] .nil .nil, .node 50 [ordSell50] .nil .nil, ordBuy5, mgr0, [], 0⟩

/-- A fully filled incoming buy (wanted = 0). -/
def ordBuyDone : Order := ⟨"B", "buyer", "limit", "buy", 50, 1, 1, []⟩

/-- A fully filled resting sell (available = 0). -/
def ordSellDone : Order := ⟨"S", "seller", "limit", "sell", 50, 1, 1, []⟩

/-- State whose incoming buy has wanted = 0 facing a resting sell with
available = 0. -/
def stDone : EngineState := twoLevelState ordBuyDone ordSellDone [] mgr0 [] 0

/-- Incoming BUY of the spec's "Exact fill" seed: price 50, quantity 1. -/
def ordBuySeed : Order := ⟨"B", "buyer", "limit", "buy", 50, 1, 0, []⟩

/-- Resting SELL of the spec's "Exact fill" seed: price 50, quantity 1. -/
def ordSellSeed : Order := ⟨"S", "seller", "limit", "sell", 50, 1, 0, []⟩

/-- The spec's "Exact fill" seed scenario. -/
def stSeed : EngineState := twoLevelState ordBuySeed ordSellSeed [] mgr0 [] 0

/-- Incoming BUY wanting 2 at price 50. -/
def ordBuyTwo : Order := ⟨"B", "buyer", "limit", "buy", 50, 2, 0, []⟩

/-- Resting SELL offering 1 at price 50. -/
def ordSellOne : Order := ⟨"S1", "seller", "limit", "sell", 50, 1, 0, []⟩

/-- A greedy-case state: the incoming buy wants more than the resting head
offers. -/
def stGreedy : EngineState := twoLevelState ordBuyTwo ordSellOne [] mgr0 [] 0

/-- Incoming BUY resting at a non-root node (price 11 under a price-0
scaffolding root, as `Start` produces). -/
def ordBuy11 : Order := ⟨"B", "buyer", "limit", "buy", 11, 10, 0, []⟩

/-- Resting SELL at a root-level node of price 9. -/
def ordSell9 : Order := ⟨"S", "seller", "limit", "sell", 9, 10, 0, []⟩

/-- State whose incoming buy order rests below a scaffolding root, the
shape `Start`'s insertion actually produces. -/
def stDeep : EngineState :=
  ⟨.node 0 [] .nil (.node 11 [ordBuy11] .nil .nil),
   .node 9 [ordSell9] .nil .nil, ordBuy11, mgr0, [], 0⟩

/-- A resting order at price 10 used in the tree counterexamples. -/
def ordAt10 : Order := ⟨"R", "x", "limit", "sell", 10, 3, 0, []⟩

/-- A resting order at price 5 used in the tree counterexamples. -/
def ordAt5 : Order := ⟨"O", "y", "limit", "sell", 5, 2, 0, []⟩

/-- Tree whose leftmost node (price 5) is empty scaffolding while the root
(price 10) holds an order. -/
def treeEmptyMin : Tree :=
  .node 10 [ordAt10] (.node 5 [] .nil .nil) .nil

/-- Tree holding one order at the root level (price 10) and one at a
non-root level (price 5). -/
def treeTwoLevels : Tree :=
  .node 10 [ordAt10] (.node 5 [ordAt5] .nil .nil) .nil

/-- Blocked configuration: the incoming buy rests in its side while the
sell side is the empty scaffolding `Start` builds. -/
def stBlocked : EngineState :=
  ⟨startNode.insert ordBuy5, startNode, ordBuy5, mgr0, [], 0⟩

/-- An order at price 7, a price absent from `treeTwoLevels`. -/
def ordAt7 : Order := ⟨"Z", "z", "limit", "sell", 7, 1, 0, []⟩

/-- Seed state over an empty ledger: every transfer fails with a missing
account. -/
def stNoFunds : EngineState := twoLevelState ordBuySeed ordSellSeed [] mgrEmpty [] 0

/-- C1: the claim requires a fill step only when the buy limit crosses the
resting ask (p ≥ q).  In the code `AttemptFill` never compares prices: on
the "No cross" configuration (incoming BUY at 5 against resting SELL at
50) one fill step runs anyway — a Match is emitted and the incoming order
is filled at quantity 1, although 5 < 50. -/
theorem C1_buy_fills_without_price_check :
    ordBuy5.price < ordSell50.price ∧
    (attemptFillStep stNoCross).map
        (fun r => (r.1, (r.2).matchesOut, (r.2).fillorder.filled)) =
      some (.ret, [⟨"B", "S", 0, 0, 0⟩], 1) := by
  exact ⟨by decide, rfl⟩

/-- C4: after the exact fill on `stDeep` the incoming buy order is
exhausted (filled = open = 10), yet it is still listed in the buy tree:
`RemoveOrder` spliced the root's (empty) list instead of the found node's,
so the exhausted order was never removed.  The sell side, whose level sat
at the root, was emptied correctly. -/
theorem C4_exhausted_order_left_in_tree :
    (attemptFillStep stDeep).map
        (fun r => ((r.2).buyTree.listOrders.map (fun o => (o.id, o.filled, o.openQty)),
                   (r.2).sellTree.listOrders.length)) =
      some ([("B", 10, 10)], 0) := rfl

/-- C6: the Match emitted by the exact handler on the spec's "Exact fill"
seed carries price 0, quantity 0, total 0 — none of the fields the claim
requires (price 50, quantity 1, total 50) is populated, although the fill
did happen (the incoming order ends with filled = 1).  The greedy handler
populates price and quantity but never total (0 ≠ 50·1). -/
theorem C6_match_fields_not_populated :
    (attemptFillStep stSeed).map
        (fun r => ((r.2).matchesOut, (r.2).fillorder.filled)) =
      some ([⟨"B", "S", 0, 0, 0⟩], 1)
    ∧ (attemptFillStep stGreedy).map (fun r => (r.2).matchesOut) =
      some [⟨"B", "S1", 50, 1, 0⟩]
    ∧ ordSellSeed.price = 50 ∧ (0 : Nat) ≠ 50 * 1 := by
  exact ⟨rfl, rfl, rfl, by decide⟩

/-- C2 counterexample: the claim says the iteration terminates WITHOUT
emitting a Match when wanted = 0.  On `stDone` (wanted = 0, available = 0)
the iteration terminates but the exact handler still emits one Match. -/
theorem C2_counterexample_wanted_zero_emits :
    sub64 ordBuyDone.openQty ordBuyDone.filled = 0 ∧
    (attemptFillStep stDone).map (fun r => (r.1, (r.2).matchesOut.length)) =
      some (.ret, 1) := by
  exact ⟨by decide, rfl⟩

/-- C3 counterexample: on the "Exact fill" seed (price 50, quantity 1,
both balances 1000) a fill step runs, yet both balances are unchanged: the
handler computes `float64((1 * 50) / 100) = 0`, not the claim's
p·q = 50. -/
theorem C3_counterexample_amount_truncated :
    (attemptFillStep stSeed).map
        (fun r => ((r.2).matchesOut.length,
                   (r.2).acc.getAccount "buyer", (r.2).acc.getAccount "seller")) =
      some (1, some ⟨"buyer", 1000⟩, some ⟨"seller", 1000⟩)
    ∧ (1000 : Rat) ≠ 1000 - 50 * 1 := by
  constructor
  · simp +decide [attemptFillStep, stSeed, twoLevelState, exact, humble, greedy, txAmount,
      sub64, add64, mul64, u64Mod, EngineState.writeBuy, EngineState.writeSell,
      Tree.updateOrder, Tree.removeOrder, Tree.findOrders?, Tree.setOrdersAtPrice,
      Tree.setRootOrders, Tree.findMin, Tree.ordersOf, InMemoryManager.tx,
      InMemoryManager.getAccount, InMemoryManager.setAccount, ordBuySeed, ordSellSeed, mgr0,
      List.findIdx?]
  · norm_num

/-- C7 counterexample: `FindMin` on a tree whose leftmost node is empty
scaffolding returns that empty node — not the lowest level that contains
an order (the root, price 10, holds one), and not an empty sentinel. -/
theorem C7_counterexample_findMin_empty_level :
    (treeEmptyMin.findMin).ordersOf = [] ∧ treeEmptyMin.findMin ≠ .nil ∧
    treeEmptyMin.listOrders = [ordAt10] := by
  exact ⟨rfl, by decide, rfl⟩

/-- C8 counterexample: removing the order resting at the non-root price-5
level reports success but leaves that order in place and empties the ROOT
level's list instead (the root's own order is lost). -/
theorem C8_counterexample_remove_clobbers_root :
    treeTwoLevels.removeOrder ordAt5 =
      (.node 10 [] (.node 5 [ordAt5] .nil .nil) .nil, true)
    ∧ ordAt5 ∈ (treeTwoLevels.removeOrder ordAt5).1.listOrders
    ∧ ordAt10 ∉ (treeTwoLevels.removeOrder ordAt5).1.listOrders := by
  exact ⟨rfl, by decide, by decide⟩

/-- C9 counterexample: with the sell side empty (no crossable opposite),
the claim says the matcher terminates as blocked; instead 100 iterations
of the loop still have not returned — each iteration leaves the state
unchanged and retries. -/
theorem C9_counterexample_blocked_spins :
    (stBlocked.sellTree.findMin).ordersOf = [] ∧
    attemptFillFuel 100 stBlocked = .spin := ⟨rfl, rfl⟩

/-- Helper: `find` on a price absent from the tree reaches a nil subtree
and fabricates a fresh node. -/
theorem find_of_findOrders_none :
    ∀ (t : Tree) (p : Nat), t.findOrders? p = none → t.find p = Tree.newNode p := by
  intro t
  induction t with
  | nil => intro p _; rfl
  | node q os l r ihl ihr =>
    intro p h
    simp only [Tree.findOrders?] at h
    simp only [Tree.find]
    by_cases h1 : p = q
    · rw [if_pos h1] at h; cases h
    · rw [if_neg h1] at h ⊢
      by_cases h2 : p < q
      · rw [if_pos h2] at h ⊢; exact ihl p h
      · rw [if_neg h2] at h ⊢; exact ihr p h

/-- C10: `Find` on an absent price returns a freshly allocated detached
node (price `p`, empty order list, nil children) without linking it into
the tree, and consequently `RemoveOrder` of an order whose price level is
absent returns false and leaves the tree unchanged. -/
theorem C10_find_detached_remove_noop (t : Tree) (o : Order)
    (h : t.findOrders? o.price = none) :
    t.find o.price = Tree.newNode o.price ∧ t.removeOrder o = (t, false) := by
  refine ⟨find_of_findOrders_none t o.price h, ?_⟩
  simp [Tree.removeOrder, h]

/-- C10 witness: price 7 is absent from `treeTwoLevels`; `Find` returns
the detached fresh node and `RemoveOrder` is a no-op returning false. -/
theorem C10_witness :
    treeTwoLevels.findOrders? ordAt7.price = none ∧
    treeTwoLevels.find ordAt7.price = Tree.newNode ordAt7.price ∧
    treeTwoLevels.removeOrder ordAt7 = (treeTwoLevels, false) := by
  refine ⟨rfl, ?_, ?_⟩
  · exact (C10_find_detached_remove_noop treeTwoLevels ordAt7 rfl).1
  · exact (C10_find_detached_remove_noop treeTwoLevels ordAt7 rfl).2

/-- Helper: `FindMin` of a BST-ordered nonempty tree returns a non-nil
node whose price is the minimum over all node prices (empty order lists
included). -/
theorem findMin_spec :
    ∀ t : Tree, t.isBST = true → t ≠ .nil →
      t.findMin ≠ .nil ∧ (t.findMin).priceOf ∈ t.prices ∧
        ∀ q ∈ t.prices, (t.findMin).priceOf ≤ q := by
  intro t
  induction t with
  | nil => intro _ hne; exact absurd rfl hne
  | node p os l r ihl ihr =>
    intro hb _
    simp only [Tree.isBST, Bool.and_eq_true, List.all_eq_true, decide_eq_true_eq] at hb
    obtain ⟨⟨⟨hlt, hgt⟩, hlb⟩, hrb⟩ := hb
    cases l with
    | nil =>
      refine ⟨by simp [Tree.findMin], ?_, ?_⟩
      · simp [Tree.findMin, Tree.priceOf, Tree.prices]
      · intro q hq
        simp only [Tree.prices, Tree.findMin, Tree.priceOf, List.nil_append,
          List.mem_cons] at hq ⊢
        rcases hq with rfl | hq
        · exact le_refl _
        · exact le_of_lt (hgt q hq)
    | node lp los ll lr =>
      obtain ⟨hne1, hmem1, hmin1⟩ := ihl hlb (by simp)
      have hstep : (Tree.node p os (Tree.node lp los ll lr) r).findMin =
          (Tree.node lp los ll lr).findMin := rfl
      have hpr : (Tree.node p os (Tree.node lp los ll lr) r).prices =
          (Tree.node lp los ll lr).prices ++ p :: r.prices := rfl
      refine ⟨by rw [hstep]; exact hne1, ?_, ?_⟩
      · rw [hstep, hpr]
        exact List.mem_append.mpr (Or.inl hmem1)
      · intro q hq
        rw [hstep]
        rw [hpr] at hq
        have hminp : (Tree.node lp los ll lr).findMin.priceOf < p := hlt _ hmem1
        rcases List.mem_append.mp hq with hq | hq
        · exact hmin1 q hq
        · rcases List.mem_cons.mp hq with rfl | hq
          · exact le_of_lt hminp
          · exact le_of_lt (lt_trans hminp (hgt q hq))

/-- Helper: `FindMax` of a BST-ordered nonempty tree returns a non-nil
node whose price is the maximum over all node prices. -/
theorem findMax_spec :
    ∀ t : Tree, t.isBST = true → t ≠ .nil →
      t.findMax ≠ .nil ∧ (t.findMax).priceOf ∈ t.prices ∧
        ∀ q ∈ t.prices, q ≤ (t.findMax).priceOf := by
  intro t
  induction t with
  | nil => intro _ hne; exact absurd rfl hne
  | node p os l r ihl ihr =>
    intro hb _
    simp only [Tree.isBST, Bool.and_eq_true, List.all_eq_true, decide_eq_true_eq] at hb
    obtain ⟨⟨⟨hlt, hgt⟩, hlb⟩, hrb⟩ := hb
    cases r with
    | nil =>
      refine ⟨by simp [Tree.findMax], ?_, ?_⟩
      · simp [Tree.findMax, Tree.priceOf, Tree.prices]
      · intro q hq
        simp only [Tree.prices, Tree.findMax, Tree.priceOf, List.mem_append,
          List.mem_cons] at hq ⊢
        rcases hq with hq | rfl | hq
        · exact le_of_lt (hlt q hq)
        · exact le_refl _
        · cases hq
    | node rp ros rl rr =>
      obtain ⟨hne1, hmem1, hmax1⟩ := ihr hrb (by simp)
      have hstep : (Tree.node p os l (Tree.node rp ros rl rr)).findMax =
          (Tree.node rp ros rl rr).findMax := rfl
      have hpr : (Tree.node p os l (Tree.node rp ros rl rr)).prices =
          l.prices ++ p :: (Tree.node rp ros rl rr).prices := rfl
      refine ⟨by rw [hstep]; exact hne1, ?_, ?_⟩
      · rw [hstep, hpr]
        exact List.mem_append.mpr (Or.inr (List.mem_cons.mpr (Or.inr hmem1)))
      · intro q hq
        rw [hstep]
        rw [hpr] at hq
        have hmaxp : p < (Tree.node rp ros rl rr).findMax.priceOf := hgt _ hmem1
        rcases List.mem_append.mp hq with hq | hq
        · exact le_of_lt (lt_trans (hlt q hq) hmaxp)
        · rcases List.mem_cons.mp hq with rfl | hq
          · exact le_of_lt hmaxp
          · exact hmax1 q hq

/-- C7 (amended): on a BST-ordered nonempty tree, `FindMin` (`FindMax`)
returns the node of minimum (maximum) price among ALL nodes — regardless
of whether that node's order list is empty; empty scaffolding levels are
not skipped, and nil is returned only for a nil tree. -/
theorem C7_extrema_ignore_emptiness (t : Tree) (hb : t.isBST = true) (hne : t ≠ .nil) :
    (t.findMin ≠ .nil ∧ (t.findMin).priceOf ∈ t.prices ∧
      ∀ q ∈ t.prices, (t.findMin).priceOf ≤ q)
  ∧ (t.findMax ≠ .nil ∧ (t.findMax).priceOf ∈ t.prices ∧
      ∀ q ∈ t.prices, q ≤ (t.findMax).priceOf)
  ∧ Tree.findMin .nil = .nil ∧ Tree.findMax .nil = .nil :=
  ⟨findMin_spec t hb hne, findMax_spec t hb hne, rfl, rfl⟩

/-- Helper: `find?` for a key after rewriting every entry of that key. -/
theorem find_map_set (l : List (String × UserAccount)) (k : String) (a : UserAccount) :
    ((l.map fun kv => if kv.1 = k then (kv.1, a) else kv).find? fun kv => kv.1 = k) =
      ((l.find? fun kv => kv.1 = k).map fun _ => (k, a)) := by
  induction l with
  | nil => rfl
  | cons kv tl ih =>
    rw [List.map_cons]
    by_cases h : kv.1 = k
    · rw [if_pos h, List.find?_cons_of_pos _ (by simp [h]),
        List.find?_cons_of_pos _ (by simp [h])]
      simp [h]
    · rw [if_neg h, List.find?_cons_of_neg _ (by simp [h]),
        List.find?_cons_of_neg _ (by simp [h])]
      exact ih

/-- Helper: `find?` for a different key is unaffected by rewriting the
entries of key `k` (keys are preserved). -/
theorem find_map_set_ne (l : List (String × UserAccount)) (k k' : String)
    (a : UserAccount) (h : k' ≠ k) :
    ((l.map fun kv => if kv.1 = k then (kv.1, a) else kv).find? fun kv => kv.1 = k') =
      (l.find? fun kv => kv.1 = k') := by
  induction l with
  | nil => rfl
  | cons kv tl ih =>
    rw [List.map_cons]
    by_cases hk : kv.1 = k
    · have hk' : ¬ (kv.1 = k') := fun hh => h (hh ▸ hk ▸ rfl)
      rw [if_pos hk, List.find?_cons_of_neg _ (by simp; exact fun hh => hk' (hh ▸ hk ▸ rfl)),
        List.find?_cons_of_neg _ (by simp [hk']), ih]
    · rw [if_neg hk]
      by_cases hk' : kv.1 = k'
      · rw [List.find?_cons_of_pos _ (by simp [hk']), List.find?_cons_of_pos _ (by simp [hk'])]
      · rw [List.find?_cons_of_neg _ (by simp [hk']), List.find?_cons_of_neg _ (by simp [hk']),
          ih]

/-- Helper: reading the account just written. -/
theorem getAccount_set_same (m : InMemoryManager) (k : String) (a : UserAccount) :
    (m.setAccount k a).getAccount k = ((m.getAccount k).map fun _ => a) := by
  simp only [InMemoryManager.getAccount, InMemoryManager.setAccount]
  rw [find_map_set]
  cases m.accounts.find? fun kv => kv.1 = k <;> rfl

/-- Helper: reading an account other than the one written. -/
theorem getAccount_set_ne (m : InMemoryManager) (k k' : String) (a : UserAccount)
    (h : k' ≠ k) :
    (m.setAccount k a).getAccount k' = m.getAccount k' := by
  simp only [InMemoryManager.getAccount, InMemoryManager.setAccount]
  rw [find_map_set_ne _ _ _ _ h]

/-- Helper: `Tx` between two distinct existing accounts with a sufficient
source balance succeeds, debiting the source and crediting the destination
by exactly the transferred amount. -/
theorem tx_ok_spec (m : InMemoryManager) (f t : String) (a : Rat) (fa ta : UserAccount)
    (hf : m.getAccount f = some fa) (ht : m.getAccount t = some ta)
    (hne : f ≠ t) (hbal : ¬ fa.currentBalance < a) :
    ∃ m2, m.tx f t a = .ok m2 ∧
      m2.getAccount f = some { fa with currentBalance := fa.currentBalance - a } ∧
      m2.getAccount t = some { ta with currentBalance := ta.currentBalance + a } := by
  have h1 : (m.setAccount f
      { fa with currentBalance := fa.currentBalance - a }).getAccount t = some ta := by
    rw [getAccount_set_ne _ _ _ _ (Ne.symm hne)]
    exact ht
  refine ⟨(m.setAccount f { fa with currentBalance := fa.currentBalance - a }).setAccount t
      { ta with currentBalance := ta.currentBalance + a }, ?_, ?_, ?_⟩
  · simp only [InMemoryManager.tx, hf, ht, if_neg hbal, h1]
  · rw [getAccount_set_ne _ _ _ _ hne, getAccount_set_same, hf]
    rfl
  · rw [getAccount_set_same, h1]
    rfl

/-- C3 (amended): the amount each handler hands to the ledger is
`float64((quantity × price) / 100)` — the integer minor-unit total
truncated by integer division by 100 — not `quantity × price` itself; on
success the buyer's balance decreases and the seller's increases by
exactly that truncated amount.  Stated for all three handlers (`humble`
with quantity = wanted, `greedy` and `exact` with quantity =
available). -/
theorem C3_transfer_amount (st : EngineState) (B S : Order) (fa sa : UserAccount)
    (hBo : B.openQty < u64Mod) (hBf : B.filled ≤ B.openQty)
    (hSo : S.openQty < u64Mod) (hSf : S.filled ≤ S.openQty)
    (hmH : (B.openQty - B.filled) * S.price < u64Mod)
    (hmG : (S.openQty - S.filled) * S.price < u64Mod)
    (hf : st.acc.getAccount B.accountID = some fa)
    (ht : st.acc.getAccount S.accountID = some sa)
    (hne : B.accountID ≠ S.accountID) :
    (¬ fa.currentBalance < (((B.openQty - B.filled) * S.price / 100 : Nat) : Rat) →
      (humble st B S).acc.getAccount B.accountID =
        some { fa with currentBalance :=
          fa.currentBalance - (((B.openQty - B.filled) * S.price / 100 : Nat) : Rat) } ∧
      (humble st B S).acc.getAccount S.accountID =
        some { sa with currentBalance :=
          sa.currentBalance + (((B.openQty - B.filled) * S.price / 100 : Nat) : Rat) })
  ∧ (¬ fa.currentBalance < (((S.openQty - S.filled) * S.price / 100 : Nat) : Rat) →
      (greedy st B S).acc.getAccount B.accountID =
        some { fa with currentBalance :=
          fa.currentBalance - (((S.openQty - S.filled) * S.price / 100 : Nat) : Rat) } ∧
      (greedy st B S).acc.getAccount S.accountID =
        some { sa with currentBalance :=
          sa.currentBalance + (((S.openQty - S.filled) * S.price / 100 : Nat) : Rat) })
  ∧ (B.openQty - B.filled ≠ 0 →
     S.openQty - S.filled = B.openQty - B.filled →
     ¬ fa.currentBalance < (((S.openQty - S.filled) * S.price / 100 : Nat) : Rat) →
     ∀ stRes, exact st B S = some stRes →
       stRes.acc.getAccount B.accountID =
         some { fa with currentBalance :=
           fa.currentBalance - (((S.openQty - S.filled) * S.price / 100 : Nat) : Rat) } ∧
       stRes.acc.getAccount S.accountID =
         some { sa with currentBalance :=
           sa.currentBalance + (((S.openQty - S.filled) * S.price / 100 : Nat) : Rat) }) := by
  have hsB : sub64 B.openQty B.filled = B.openQty - B.filled := sub64_eq hBf hBo
  have hsS : sub64 S.openQty S.filled = S.openQty - S.filled := sub64_eq hSf hSo
  have hamH : txAmount (sub64 B.openQty B.filled) S.price
      = (((B.openQty - B.filled) * S.price / 100 : Nat) : Rat) := by
    simp only [txAmount, hsB, mul64_eq hmH]
  have hamG : txAmount (sub64 S.openQty S.filled) S.price
      = (((S.openQty - S.filled) * S.price / 100 : Nat) : Rat) := by
    simp only [txAmount, hsS, mul64_eq hmG]
  refine ⟨?_, ?_, ?_⟩
  · intro hbal
    obtain ⟨m2, htx, hb1, hb2⟩ := tx_ok_spec st.acc B.accountID S.accountID
      (((B.openQty - B.filled) * S.price / 100 : Nat) : Rat) fa sa hf ht hne hbal
    have htx1 : st.acc.tx B.accountID S.accountID
        (txAmount (sub64 B.openQty B.filled) S.price) = .ok m2 := by rw [hamH]; exact htx
    constructor
    · simp only [humble, htx1]
      exact hb1
    · simp only [humble, htx1]
      exact hb2
  · intro hbal
    obtain ⟨m2, htx, hb1, hb2⟩ := tx_ok_spec st.acc B.accountID S.accountID
      (((S.openQty - S.filled) * S.price / 100 : Nat) : Rat) fa sa hf ht hne hbal
    have htx1 : st.acc.tx B.accountID S.accountID
        (txAmount (sub64 S.openQty S.filled) S.price) = .ok m2 := by rw [hamG]; exact htx
    constructor
    · simp only [greedy, htx1]
      split <;> exact hb1
    · simp only [greedy, htx1]
      split <;> exact hb2
  · intro hw heq hbal stRes hres
    obtain ⟨m2, htx, hb1, hb2⟩ := tx_ok_spec st.acc B.accountID S.accountID
      (((S.openQty - S.filled) * S.price / 100 : Nat) : Rat) fa sa hf ht hne hbal
    have htx1 : st.acc.tx B.accountID S.accountID
        (txAmount (sub64 S.openQty S.filled) S.price) = .ok m2 := by rw [hamG]; exact htx
    have hw1 : ¬ (sub64 B.openQty B.filled = 0) := by rw [hsB]; exact hw
    have heq1 : ¬ (sub64 S.openQty S.filled ≠ sub64 B.openQty B.filled) := by
      rw [hsB, hsS]; exact fun hh => hh heq
    simp only [exact, if_neg hw1, if_neg heq1, htx1] at hres
    split at hres
    · cases hres
    · split at hres
      · cases hres
      · cases hres
        exact ⟨hb1, hb2⟩

/-- C3 witness: the theorem applied to the concrete greedy scenario
(resting sell of quantity 1 at price 50): the ledger moves exactly
`(1 × 50) / 100` (which is 0), debited from the buyer and credited to the
seller. -/
theorem C3_witness :
    (greedy stGreedy ordBuyTwo ordSellOne).acc.getAccount "buyer" =
      some ⟨"buyer",
        1000 - (((ordSellOne.openQty - ordSellOne.filled) * ordSellOne.price / 100 : Nat) : Rat)⟩ ∧
    (greedy stGreedy ordBuyTwo ordSellOne).acc.getAccount "seller" =
      some ⟨"seller",
        1000 + (((ordSellOne.openQty - ordSellOne.filled) * ordSellOne.price / 100 : Nat) : Rat)⟩ :=
  (C3_transfer_amount stGreedy ordBuyTwo ordSellOne ⟨"buyer", 1000⟩ ⟨"seller", 1000⟩
    (by decide) (by decide) (by decide) (by decide) (by decide) (by decide)
    rfl rfl (by decide)).2.1 (by norm_num [ordSellOne])

/-- C5: if the ledger transfer inside a fill handler fails, the handler
leaves the whole engine state unchanged — both orders' filled and history
fields, both trees, the ledger and the emitted matches — except that one
error is surfaced on the errors channel.  Stated for all three handlers
(for `exact`, under the preconditions with which `AttemptFill` invokes
it). -/
theorem C5_transfer_failure (st : EngineState) (B S : Order) :
    (∀ e, st.acc.tx B.accountID S.accountID
        (txAmount (sub64 S.openQty S.filled) S.price) = .error e →
      sub64 S.openQty S.filled = sub64 B.openQty B.filled →
      sub64 B.openQty B.filled ≠ 0 →
      exact st B S = some { st with errors := st.errors + 1 })
  ∧ (∀ e, st.acc.tx B.accountID S.accountID
        (txAmount (sub64 B.openQty B.filled) S.price) = .error e →
      humble st B S = { st with errors := st.errors + 1 })
  ∧ (∀ e, st.acc.tx B.accountID S.accountID
        (txAmount (sub64 S.openQty S.filled) S.price) = .error e →
      greedy st B S = { st with errors := st.errors + 1 }) := by
  refine ⟨?_, ?_, ?_⟩
  · intro e htx heq hw
    have heq1 : ¬ (sub64 S.openQty S.filled ≠ sub64 B.openQty B.filled) :=
      fun hh => hh heq
    simp only [exact, if_neg hw, if_neg heq1, htx]
  · intro e htx
    simp only [humble, htx]
  · intro e htx
    simp only [greedy, htx]

/-- C5 witness: on an empty ledger the transfer fails with a missing
account, and the humble handler leaves the state untouched except for one
surfaced error. -/
theorem C5_witness :
    humble stNoFunds ordBuySeed ordSellSeed = { stNoFunds with errors := stNoFunds.errors + 1 } :=
  ((C5_transfer_failure stNoFunds ordBuySeed ordSellSeed).2.1) "from account does not exist" rfl

/-- C8 (amended): `RemoveOrder(o)` deletes exactly `o`'s first id-match
from its level and preserves everything else ONLY when `o`'s price level
is the receiver (root) node; when `o` rests at a non-root level, the
spliced copy of that level is written to the ROOT's order list while the
level itself keeps its original length (elements shifted, last one
duplicated in `getLast?`, so `o` is not removed); the Boolean result is
true iff an order with `o`'s id sits at `o`'s price level. -/
theorem C8_removeOrder_behaviour :
    (∀ (p : Nat) (os : List Order) (l r : Tree) (o : Order) (i : Nat),
      o.price = p → os.findIdx? (fun x => x.id = o.id) = some i →
      (Tree.node p os l r).removeOrder o =
        (.node p (os.take i ++ os.drop (i + 1)) l r, true))
  ∧ (∀ (rp : Nat) (ros os : List Order) (rt : Tree) (o : Order) (i : Nat),
      o.price < rp → os.findIdx? (fun x => x.id = o.id) = some i →
      (Tree.node rp ros (.node o.price os .nil .nil) rt).removeOrder o =
        (.node rp (os.take i ++ os.drop (i + 1))
          (.node o.price ((os.take i ++ os.drop (i + 1)) ++ os.getLast?.toList) .nil .nil)
          rt, true))
  ∧ (∀ (t : Tree) (o : Order) (os : List Order),
      t.findOrders? o.price = some os →
      os.findIdx? (fun x => x.id = o.id) = none →
      t.removeOrder o = (t, false)) := by
  refine ⟨?_, ?_, ?_⟩
  · intro p os l r o i hp hidx
    subst hp
    have h1 : (Tree.node o.price os l r).findOrders? o.price = some os := by
      simp [Tree.findOrders?]
    simp [Tree.removeOrder, h1, hidx, Tree.setOrdersAtPrice, Tree.setRootOrders]
  · intro rp ros os rt o i hlt hidx
    have hne : ¬ (o.price = rp) := ne_of_lt hlt
    have h1 : (Tree.node rp ros (Tree.node o.price os .nil .nil) rt).findOrders? o.price
        = some os := by
      simp [Tree.findOrders?, hne, hlt]
    simp [Tree.removeOrder, h1, hidx, Tree.setOrdersAtPrice, Tree.setRootOrders, hne, hlt]
  · intro t o os h1 h2
    simp [Tree.removeOrder, h1, h2]

/-- C8 witness: removing the root-level order of `treeTwoLevels` works as
the amended claim states. -/
theorem C8_witness :
    treeTwoLevels.removeOrder ordAt10 =
      (.node 10 [] (.node 5 [ordAt5] .nil .nil) .nil, true) :=
  (C8_removeOrder_behaviour).1 10 [ordAt10] (.node 5 [ordAt5] .nil .nil) .nil ordAt10 0
    rfl (by decide)

/-- C7 witness: applied to `treeEmptyMin` (a BST with an empty leftmost
level), `FindMin` returns a non-nil node whose price occurs in the tree. -/
theorem C7_witness :
    treeEmptyMin.findMin ≠ .nil ∧ (treeEmptyMin.findMin).priceOf ∈ treeEmptyMin.prices :=
  ⟨((C7_extrema_ignore_emptiness treeEmptyMin (by decide) (by decide)).1).1,
   ((C7_extrema_ignore_emptiness treeEmptyMin (by decide) (by decide)).1).2.1⟩

/-- C9 (amended): an iteration of the matcher's loop on a non-buy order,
or on a buy order whose opposite minimum level is empty, leaves the state
unchanged and continues — so the loop never reaches a terminal state while
no opposite resting order exists (it spins rather than terminating
blocked); when the buy order's unfilled quantity is zero and an opposite
head exists, the iteration does return (terminate). -/
theorem C9_loop_behaviour :
    (∀ st : EngineState, st.fillorder.side ≠ "buy" →
      attemptFillStep st = some (.again, st))
  ∧ (∀ st : EngineState, (st.sellTree.findMin).ordersOf = [] →
      attemptFillStep st = some (.again, st))
  ∧ (∀ (n : Nat) (st : EngineState),
      (st.sellTree.findMin).ordersOf = [] ∨ st.fillorder.side ≠ "buy" →
      attemptFillFuel n st = .spin)
  ∧ (∀ (st : EngineState) (bo : Order) (tl : List Order),
      st.fillorder.side = "buy" →
      (st.sellTree.findMin).ordersOf = bo :: tl →
      sub64 st.fillorder.openQty st.fillorder.filled = 0 →
      ∃ st1, attemptFillStep st = some (.ret, st1)) := by
  have h1 : ∀ st : EngineState, st.fillorder.side ≠ "buy" →
      attemptFillStep st = some (.again, st) := by
    intro st h
    simp only [attemptFillStep, if_neg h]
  have h2 : ∀ st : EngineState, (st.sellTree.findMin).ordersOf = [] →
      attemptFillStep st = some (.again, st) := by
    intro st h
    by_cases hs : st.fillorder.side = "buy"
    · simp only [attemptFillStep, if_pos hs, h]
    · exact h1 st hs
  have h3 : ∀ (n : Nat) (st : EngineState),
      (st.sellTree.findMin).ordersOf = [] ∨ st.fillorder.side ≠ "buy" →
      attemptFillFuel n st = .spin := by
    intro n
    induction n with
    | zero => intro st _; rfl
    | succ k ih =>
      intro st h
      have hstep : attemptFillStep st = some (.again, st) := by
        rcases h with h | h
        · exact h2 st h
        · exact h1 st h
      rw [attemptFillFuel, hstep]
      exact ih st h
  refine ⟨h1, h2, h3, ?_⟩
  intro st bo tl hs hmin hw
  rcases Nat.eq_zero_or_pos (sub64 bo.openQty bo.filled) with ha | ha
  · refine ⟨{ st with matchesOut :=
        st.matchesOut ++ [⟨st.fillorder.id, bo.id, 0, 0, 0⟩] }, ?_⟩
    simp only [attemptFillStep, if_pos hs, hmin, hw, ha]
    rw [if_neg (by decide : ¬ (0 : Nat) < 0), if_neg (by decide : ¬ (0 : Nat) < 0)]
    simp [exact, hw]
  · refine ⟨humble st st.fillorder bo, ?_⟩
    simp only [attemptFillStep, if_pos hs, hmin, hw]
    rw [if_neg (Nat.not_lt_zero _), if_pos ha]

/-- C9 witness: the spin conjunct applied to the concrete blocked state
(buy order resting, empty sell side). -/
theorem C9_witness : attemptFillFuel 3 stBlocked = .spin :=
  (C9_loop_behaviour).2.2.1 3 stBlocked (Or.inl rfl)

/-- Helper: a pointer write to an order of id `i` leaves a list holding no
order of that id unchanged. -/
theorem map_keep_id (l : List Order) (o : Order) (i : String) (h : ∀ x ∈ l, x.id ≠ i) :
    (l.map fun x => if x.id = i then o else x) = l := by
  induction l with
  | nil => rfl
  | cons a tl ih =>
    rw [List.map_cons, if_neg (h a (List.mem_cons_self a tl)),
      ih (fun x hx => h x (List.mem_cons_of_mem a hx))]

/-- C2 (amended): on a state whose two price levels sit at their trees'
roots (so the buggy `RemoveOrder` takes effect), each iteration of the
matcher behaves as follows.  Greedy (`wanted > available`): both filled
fields rise by `available`, only the resting order is removed, one Match
(price and quantity set, total 0) is emitted, the loop continues.  Humble
(`wanted < available`): both filled fields rise by `wanted`, only the
incoming order is removed, one zero-field Match is emitted, the loop
returns.  Exact (`wanted = available ≠ 0`): both orders removed, one
zero-field Match emitted, the loop returns.  But when `wanted = 0` (and
`available = 0`) the iteration still EMITS one Match — contrary to the
claim's "terminates without emitting a Match" — and returns with nothing
else changed. -/
theorem C2_iteration_cases (B S : Order) (ss : List Order) (m acc1 : InMemoryManager)
    (ms : List Match) (e : Nat)
    (hside : B.side = "buy") (hid : B.id ≠ S.id)
    (hss : ∀ x ∈ ss, x.id ≠ B.id ∧ x.id ≠ S.id)
    (hBo : B.openQty < u64Mod) (hBf : B.filled ≤ B.openQty)
    (hSo : S.openQty < u64Mod) (hSf : S.filled ≤ S.openQty) :
    (S.openQty - S.filled < B.openQty - B.filled →
     m.tx B.accountID S.accountID (txAmount (S.openQty - S.filled) S.price) = .ok acc1 →
     attemptFillStep (twoLevelState B S ss m ms e) =
       some (.again,
        { buyTree := .node B.price
            [filledOrder B (S.openQty - S.filled) ⟨B.id, S.id, S.price, S.openQty - S.filled, 0⟩]
            .nil .nil,
          sellTree := .node S.price ss .nil .nil,
          fillorder :=
            filledOrder B (S.openQty - S.filled) ⟨B.id, S.id, S.price, S.openQty - S.filled, 0⟩,
          acc := acc1,
          matchesOut := ms ++ [⟨B.id, S.id, S.price, S.openQty - S.filled, 0⟩],
          errors := e }))
  ∧ (B.openQty - B.filled < S.openQty - S.filled →
     m.tx B.accountID S.accountID (txAmount (B.openQty - B.filled) S.price) = .ok acc1 →
     attemptFillStep (twoLevelState B S ss m ms e) =
       some (.ret,
        { buyTree := .node B.price [] .nil .nil,
          sellTree := .node S.price
            (filledOrder S (B.openQty - B.filled) ⟨B.id, S.id, 0, 0, 0⟩ :: ss) .nil .nil,
          fillorder := filledOrder B (B.openQty - B.filled) ⟨B.id, S.id, 0, 0, 0⟩,
          acc := acc1,
          matchesOut := ms ++ [⟨B.id, S.id, 0, 0, 0⟩],
          errors := e }))
  ∧ (S.openQty - S.filled = B.openQty - B.filled →
     B.openQty - B.filled ≠ 0 →
     m.tx B.accountID S.accountID (txAmount (B.openQty - B.filled) S.price) = .ok acc1 →
     attemptFillStep (twoLevelState B S ss m ms e) =
       some (.ret,
        { buyTree := .node B.price [] .nil .nil,
          sellTree := .node S.price ss .nil .nil,
          fillorder := filledOrder B (B.openQty - B.filled) ⟨B.id, S.id, 0, 0, 0⟩,
          acc := acc1,
          matchesOut := ms ++ [⟨B.id, S.id, 0, 0, 0⟩],
          errors := e }))
  ∧ (B.openQty - B.filled = 0 → S.openQty - S.filled = 0 →
     attemptFillStep (twoLevelState B S ss m ms e) =
       some (.ret,
        { buyTree := .node B.price [B] .nil .nil,
          sellTree := .node S.price (S :: ss) .nil .nil,
          fillorder := B,
          acc := m,
          matchesOut := ms ++ [⟨B.id, S.id, 0, 0, 0⟩],
          errors := e })) := by
  have hsB : sub64 B.openQty B.filled = B.openQty - B.filled := sub64_eq hBf hBo
  have hsS : sub64 S.openQty S.filled = S.openQty - S.filled := sub64_eq hSf hSo
  have hid2 : ¬ (S.id = B.id) := fun hh => hid hh.symm
  have hmap1 : ∀ (o : Order), (ss.map fun x => if x.id = B.id then o else x) = ss :=
    fun o => map_keep_id ss o B.id (fun x hx => (hss x hx).1)
  have hmap2 : ∀ (o : Order), (ss.map fun x => if x.id = S.id then o else x) = ss :=
    fun o => map_keep_id ss o S.id (fun x hx => (hss x hx).2)
  refine ⟨?_, ?_, ?_, ?_⟩
  · intro hcase htx
    have haB : add64 B.filled (S.openQty - S.filled) = B.filled + (S.openQty - S.filled) :=
      add64_eq (by simp only [u64Mod] at hBo ⊢; omega)
    have haS : add64 S.filled (S.openQty - S.filled) = S.openQty := by
      rw [add64_eq (by simp only [u64Mod] at hSo ⊢; omega)]; omega
    simp [twoLevelState, attemptFillStep, Tree.findMin, Tree.ordersOf, if_pos hside,
      hsB, hsS, if_pos hcase, greedy, htx, haB, haS, filledOrder,
      EngineState.writeBuy, EngineState.writeSell, Tree.updateOrder, List.map_cons, List.map_nil,
      hmap1, hmap2, hid, hid2, Tree.removeOrder, Tree.findOrders?, Tree.setOrdersAtPrice,
      Tree.setRootOrders, List.findIdx?_cons]
  · intro hcase htx
    have haB : add64 B.filled (B.openQty - B.filled) = B.filled + (B.openQty - B.filled) :=
      add64_eq (by simp only [u64Mod] at hBo ⊢; omega)
    have haS : add64 S.filled (B.openQty - B.filled) = S.filled + (B.openQty - B.filled) :=
      add64_eq (by simp only [u64Mod] at hSo ⊢; omega)
    have hnc : ¬ (S.openQty - S.filled < B.openQty - B.filled) := by omega
    simp [twoLevelState, attemptFillStep, Tree.findMin, Tree.ordersOf, if_pos hside,
      hsB, hsS, if_neg hnc, if_pos hcase, humble, htx, haB, haS, filledOrder,
      EngineState.writeBuy, EngineState.writeSell, Tree.updateOrder, List.map_cons, List.map_nil,
      hmap1, hmap2, hid, hid2, Tree.removeOrder, Tree.findOrders?, Tree.setOrdersAtPrice,
      Tree.setRootOrders, List.findIdx?_cons]
  · intro heq hw htx
    have haB : add64 B.filled (B.openQty - B.filled) = B.filled + (B.openQty - B.filled) :=
      add64_eq (by simp only [u64Mod] at hBo ⊢; omega)
    have haS : add64 S.filled (B.openQty - B.filled) = S.openQty := by
      rw [add64_eq (by simp only [u64Mod] at hSo ⊢; omega)]; omega
    have hnc1 : ¬ (S.openQty - S.filled < B.openQty - B.filled) := by omega
    have hnc2 : ¬ (B.openQty - B.filled < S.openQty - S.filled) := by omega
    simp [twoLevelState, attemptFillStep, Tree.findMin, Tree.ordersOf, if_pos hside,
      hsB, hsS, if_neg hnc1, if_neg hnc2, exact, heq, hw, htx, haB, haS, filledOrder,
      EngineState.writeBuy, EngineState.writeSell, Tree.updateOrder, List.map_cons, List.map_nil,
      hmap1, hmap2, hid, hid2, Tree.removeOrder, Tree.findOrders?, Tree.setOrdersAtPrice,
      Tree.setRootOrders, List.findIdx?_cons]
  · intro hw0 ha0
    simp [twoLevelState, attemptFillStep, Tree.findMin, Tree.ordersOf, if_pos hside,
      hsB, hsS, hw0, ha0, exact]

/-- C2 witness: applied at the wanted = 0 configuration `stDone` — the
iteration returns and emits one zero-field Match. -/
theorem C2_witness :
    attemptFillStep stDone =
      some (.ret,
        { buyTree := .node 50 [ordBuyDone] .nil .nil,
          sellTree := .node 50 [ordSellDone] .nil .nil,
          fillorder := ordBuyDone,
          acc := mgr0,
          matchesOut := [⟨"B", "S", 0, 0, 0⟩],
          errors := 0 }) :=
  (C2_iteration_cases ordBuyDone ordSellDone [] mgr0 mgr0 [] 0
    rfl (by decide) (by intro x hx; cases hx) (by decide) (by decide)
    (by decide) (by decide)).2.2.2 rfl rfl

end Orderbook
